import Mathlib

/-!
Shallow embedding of the Tic-Tac-Toe game engine in
`src/vite_frontend/src/main.js`.

The board is a JS array. A JS array cell can be the explicit value `null`
(how empty cells are initialised, `Array(9).fill(null)`), a mark `'X'`/`'O'`,
or `undefined` (reads past the end of the array, and holes created by an
out-of-range assignment). We model a cell as `JsCell` and the board as a
`List JsCell` whose length is the JS array's `length`. Reads `board[i]`
become `jsGet` (default `undefined` past the end) and writes `board[i] = v`
become `jsSet` (in-range: replace; out of range: extend with holes, as JS
does). Truthiness of a cell (`if (board[idx])`) is `truthy`: only a mark
is truthy; `null` and `undefined` are falsy.
-/

/-- A player mark, `'X'` or `'O'` in the source. -/
inductive Mark where
  | X : Mark
  | O : Mark
deriving DecidableEq, Repr

/-- The string the source uses for a mark. -/
def Mark.str : Mark → String
  | .X => "X"
  | .O => "O"

/-- A JS array cell: `undefined`, `null`, or a mark. -/
inductive JsCell where
  | undefined : JsCell
  | jnull : JsCell
  | mark : Mark → JsCell
deriving DecidableEq, Repr

/-- JS truthiness of a cell: only a mark is truthy. -/
def truthy : JsCell → Bool
  | .mark _ => true
  | _ => false

/-- `board[i]` in JS: the element if `i` is in range, `undefined` otherwise. -/
def jsGet (board : List JsCell) (i : Nat) : JsCell :=
  board.getD i .undefined

/-- `board[i] = v` in JS: replace in range; out of range, extend the array
with holes (`undefined`) up to `i` and put `v` there. -/
def jsSet (board : List JsCell) (i : Nat) (v : JsCell) : List JsCell :=
  if i < board.length then board.set i v
  else board ++ List.replicate (i - board.length) .undefined ++ [v]

/-- The 8 fixed win lines, in the order of `WIN_LINES` in the source:
rows, then columns, then diagonals. -/
def WIN_LINES : List (Nat × Nat × Nat) :=
  [(0, 1, 2), (3, 4, 5), (6, 7, 8),
   (0, 3, 6), (1, 4, 7), (2, 5, 8),
   (0, 4, 8), (2, 4, 6)]

/-- The loop body test in `getWinningLine`:
`board[a] && board[a] === board[b] && board[a] === board[c]`. -/
def lineMatch (board : List JsCell) : Nat × Nat × Nat → Bool
  | (a, b, c) =>
    truthy (jsGet board a)
      && decide (jsGet board a = jsGet board b)
      && decide (jsGet board a = jsGet board c)

/-- `getWinningLine(board)`: the first triple of `WIN_LINES` whose test
passes, else `null`. -/
def getWinningLine (board : List JsCell) : Option (Nat × Nat × Nat) :=
  WIN_LINES.find? (lineMatch board)

/-- `getWinner(board)`: the mark at the head of the winning line if there
is one, else `null`. -/
def getWinner (board : List JsCell) : Option Mark :=
  match getWinningLine board with
  | some (a, _, _) =>
    match jsGet board a with
    | .mark m => some m
    | _ => none
  | none => none

/-- `isDraw(board)`: `board.every((c) => c !== null) && !getWinner(board)`. -/
def isDraw (board : List JsCell) : Bool :=
  board.all (fun c => decide (c ≠ .jnull)) && (getWinner board).isNone

/-- The mutable game state object `state` in the source. -/
structure GameState where
  board : List JsCell
  current : Mark
  winner : Option Mark
  winningLine : Option (Nat × Nat × Nat)
  moveCount : Nat
deriving DecidableEq, Repr

/-- The initial value of `state` at load: 9 `null` cells, `current = 'X'`,
no winner, no winning line, zero moves. -/
def initState : GameState :=
  { board := List.replicate 9 .jnull
    current := .X
    winner := none
    winningLine := none
    moveCount := 0 }

/-- The ternary `state.current === 'X' ? 'O' : 'X'`. -/
def flipMark (m : Mark) : Mark :=
  if m = .X then .O else .X

/-- `handleMove(idx)` as a state transformer (the source mutates the global
`state`; we return the updated state). Guards in source order: winner set,
cell truthy, draw — each is a silent no-op. Otherwise place the mark,
bump the move count, and run the post-check. -/
def handleMove (s : GameState) (idx : Nat) : GameState :=
  if s.winner.isSome then s
  else if truthy (jsGet s.board idx) then s
  else if isDraw s.board then s
  else
    let board := jsSet s.board idx (.mark s.current)
    let moveCount := s.moveCount + 1
    match getWinningLine board with
    | some line =>
      { s with board := board, moveCount := moveCount,
               winner := some s.current, winningLine := some line }
    | none =>
      if isDraw board then
        { s with board := board, moveCount := moveCount }
      else
        { s with board := board, moveCount := moveCount,
                 current := flipMark s.current }

/-- `resetGame(hard)`: a fresh all-empty state regardless of the previous
one; `moveCount = hard ? 0 : 0`. -/
def resetGame (hard : Bool) : GameState :=
  { board := List.replicate 9 .jnull
    current := .X
    winner := none
    winningLine := none
    moveCount := if hard then 0 else 0 }

/-- The rendered text content of the status element as set by
`updateStatus` (HTML tags of the `innerHTML` assignments stripped, since
the claim is about the text the user reads). -/
def statusText (s : GameState) : String :=
  match s.winner with
  | some m => "Winner: " ++ m.str
  | none =>
    if isDraw s.board then "It\x27s a draw."
    else "Turn: " ++ s.current.str

/-- A user action the controller dispatches into the engine: activating a
cell (`handleMove`) or one of the two reset buttons (`resetGame`). -/
inductive UserAction where
  | move : Nat → UserAction
  | reset : Bool → UserAction
deriving DecidableEq, Repr

/-- One controller dispatch: `move idx` runs `handleMove`, `reset hard`
runs `resetGame` (which ignores the previous state). -/
def stepAction (s : GameState) : UserAction → GameState
  | .move idx => handleMove s idx
  | .reset hard => resetGame hard

/-- The state after a sequence of user actions from the initial state. -/
def runActions (acts : List UserAction) : GameState :=
  acts.foldl stepAction initState

/-- The state after a sequence of `handleMove` calls from the initial
state. -/
def runMoves (acts : List Nat) : GameState :=
  acts.foldl handleMove initState

/-- The marks actually placed (accepted moves) along a sequence of
`handleMove` calls, in order; a call is a placement exactly when it
changed `moveCount`. -/
def placedTrace : GameState → List Nat → List Mark
  | _, [] => []
  | s, idx :: rest =>
    let s' := handleMove s idx
    if s'.moveCount = s.moveCount then placedTrace s' rest
    else s.current :: placedTrace s' rest

/-- The mark that moves `k`-th from a fresh board under strict
alternation: X on even `k`, O on odd. -/
def parityMark (k : Nat) : Mark :=
  if k % 2 = 0 then .X else .O

/-- Number of non-empty (mark) cells of a board. -/
def countMarks (board : List JsCell) : Nat :=
  board.countP truthy

/-- All 9 cells of the 3×3 board hold a mark. -/
def boardFull (board : List JsCell) : Prop :=
  ∀ i, i < 9 → truthy (jsGet board i) = true

/-- A triple of indices whose three cells hold the same mark (non-empty
and identical), the property `getWinningLine` scans for. -/
def winsAt (board : List JsCell) : Nat × Nat × Nat → Prop
  | (a, b, c) =>
    ∃ m, jsGet board a = .mark m ∧ jsGet board b = .mark m ∧
      jsGet board c = .mark m

/-- A user action whose cell index (if any) addresses one of the 9 cells
that actually exist in the UI. -/
def inRange : UserAction → Bool
  | .move idx => idx ≤ 8
  | .reset _ => true

/-- In an in-progress state, the turn is determined by the parity of the
move count. -/
def turnAligned (s : GameState) : Prop :=
  s.winner = none → isDraw s.board = false →
    s.current = parityMark s.moveCount

/-- Reachability invariant for move sequences: the board never shrinks
below 9 cells, cells past index 8 are never `null` (JS can only leave
holes or marks there), and while `winner` is unset the board has no
completed line. -/
def sound (s : GameState) : Prop :=
  9 ≤ s.board.length ∧
  (∀ i, 9 ≤ i → jsGet s.board i ≠ .jnull) ∧
  (s.winner = none → getWinningLine s.board = none)

/-! ### Helper lemmas about board reads and writes -/

lemma jsGet_lt (board : List JsCell) (i : Nat) (h : i < board.length) :
    jsGet board i = board[i] :=
  List.getD_eq_getElem board .undefined h

lemma jsGet_ge (board : List JsCell) (i : Nat) (h : board.length ≤ i) :
    jsGet board i = .undefined :=
  List.getD_eq_default board .undefined h

lemma lt_length_of_jsGet (board : List JsCell) (i : Nat)
    (h : jsGet board i ≠ .undefined) : i < board.length := by
  by_contra hc
  exact h (jsGet_ge board i (Nat.le_of_not_lt hc))

lemma jsSet_lt (board : List JsCell) (i : Nat) (v : JsCell)
    (h : i < board.length) : jsSet board i v = board.set i v := by
  simp [jsSet, h]

lemma jsSet_ge (board : List JsCell) (i : Nat) (v : JsCell)
    (h : board.length ≤ i) :
    jsSet board i v = board ++ List.replicate (i - board.length) .undefined ++ [v] := by
  have : ¬ i < board.length := Nat.not_lt.mpr h
  simp [jsSet, this]

lemma jsGet_set_self (board : List JsCell) (i : Nat) (v : JsCell)
    (h : i < board.length) : jsGet (board.set i v) i = v := by
  rw [jsGet_lt _ _ (by simpa using h)]
  simp

lemma jsGet_set_ne (board : List JsCell) (i j : Nat) (v : JsCell)
    (h : i ≠ j) : jsGet (board.set i v) j = jsGet board j := by
  by_cases hj : j < board.length
  · rw [jsGet_lt _ _ (by simpa using hj), jsGet_lt _ _ hj]
    exact List.getElem_set_ne h _
  · rw [jsGet_ge _ _ (by simpa using Nat.le_of_not_lt hj),
      jsGet_ge _ _ (Nat.le_of_not_lt hj)]

/-! ### Helper lemmas about `handleMove` -/

lemma handleMove_of_guard (s : GameState) (idx : Nat)
    (h : s.winner.isSome = true ∨ truthy (jsGet s.board idx) = true ∨
      isDraw s.board = true) :
    handleMove s idx = s := by
  unfold handleMove
  rcases h with h | h | h <;> simp [h]

lemma handleMove_accepted (s : GameState) (idx : Nat)
    (h1 : s.winner.isSome = false) (h2 : truthy (jsGet s.board idx) = false)
    (h3 : isDraw s.board = false) :
    (handleMove s idx).board = jsSet s.board idx (.mark s.current) ∧
    (handleMove s idx).moveCount = s.moveCount + 1 := by
  unfold handleMove
  simp only [h1, h2, h3, Bool.false_eq_true, if_false]
  split
  · exact ⟨rfl, rfl⟩
  · split <;> exact ⟨rfl, rfl⟩

lemma handleMove_eq_of_moveCount_eq (s : GameState) (idx : Nat)
    (h : (handleMove s idx).moveCount = s.moveCount) :
    handleMove s idx = s := by
  by_cases h1 : s.winner.isSome = true
  · exact handleMove_of_guard s idx (Or.inl h1)
  by_cases h2 : truthy (jsGet s.board idx) = true
  · exact handleMove_of_guard s idx (Or.inr (Or.inl h2))
  by_cases h3 : isDraw s.board = true
  · exact handleMove_of_guard s idx (Or.inr (Or.inr h3))
  have := (handleMove_accepted s idx (Bool.not_eq_true _ ▸ h1)
    (Bool.not_eq_true _ ▸ h2) (Bool.not_eq_true _ ▸ h3)).2
  omega

lemma accepted_of_moveCount_ne (s : GameState) (idx : Nat)
    (h : (handleMove s idx).moveCount ≠ s.moveCount) :
    s.winner.isSome = false ∧ truthy (jsGet s.board idx) = false ∧
    isDraw s.board = false := by
  by_cases h1 : s.winner.isSome = true
  · exact absurd (congrArg GameState.moveCount
      (handleMove_of_guard s idx (Or.inl h1))) h
  by_cases h2 : truthy (jsGet s.board idx) = true
  · exact absurd (congrArg GameState.moveCount
      (handleMove_of_guard s idx (Or.inr (Or.inl h2)))) h
  by_cases h3 : isDraw s.board = true
  · exact absurd (congrArg GameState.moveCount
      (handleMove_of_guard s idx (Or.inr (Or.inr h3)))) h
  exact ⟨Bool.not_eq_true _ ▸ h1, Bool.not_eq_true _ ▸ h2,
    Bool.not_eq_true _ ▸ h3⟩

/-- C1: in any state where the winner is set, or the board is full with no
winner (a draw), or the target cell is already occupied, `handleMove` on
that cell leaves the entire state unchanged; `handleMove` is total, so no
error is raised. -/
theorem C1_invalid_move_noop (s : GameState) (idx : Nat)
    (h : s.winner.isSome = true
        ∨ ((∀ c ∈ s.board, truthy c = true) ∧ getWinner s.board = none)
        ∨ truthy (jsGet s.board idx) = true) :
    handleMove s idx = s := by
  apply handleMove_of_guard
  rcases h with h | ⟨hf, hw⟩ | h
  · exact Or.inl h
  · refine Or.inr (Or.inr ?_)
    unfold isDraw
    rw [hw]
    simp only [Option.isNone_none, Bool.and_true, List.all_eq_true]
    intro c hc
    have := hf c hc
    cases c <;> simp_all [truthy]
  · exact Or.inr (Or.inl h)

/-- Witness for C1 at a concrete state with the winner set. -/
theorem C1_invalid_move_noop_witness :
    handleMove { initState with winner := some Mark.X } 0 =
      { initState with winner := some Mark.X } :=
  C1_invalid_move_noop _ 0 (Or.inl (by decide))

/-- C2: under the preconditions (no winner, not a draw, the cell at `idx`
empty, `idx` in 0–8) `handleMove` stores the current mark at `idx` and
increments `moveCount`; if the updated board has a winning line it sets
`winner` to the current mark and `winningLine` to that line and keeps the
turn, else if the updated board is not a draw it flips the turn, else it
keeps the turn. -/
theorem C2_valid_move_effect (s : GameState) (idx : Nat)
    (hw : s.winner = none) (hd : isDraw s.board = false)
    (he : jsGet s.board idx = .jnull) (_hi : idx ≤ 8) :
    (handleMove s idx).board = s.board.set idx (.mark s.current) ∧
    (handleMove s idx).moveCount = s.moveCount + 1 ∧
    (∀ line, getWinningLine (s.board.set idx (.mark s.current)) = some line →
      (handleMove s idx).winner = some s.current ∧
      (handleMove s idx).winningLine = some line ∧
      (handleMove s idx).current = s.current) ∧
    (getWinningLine (s.board.set idx (.mark s.current)) = none →
      isDraw (s.board.set idx (.mark s.current)) = false →
      (handleMove s idx).current = flipMark s.current) ∧
    (getWinningLine (s.board.set idx (.mark s.current)) = none →
      isDraw (s.board.set idx (.mark s.current)) = true →
      (handleMove s idx).current = s.current) := by
  have hlt : idx < s.board.length :=
    lt_length_of_jsGet s.board idx (by rw [he]; intro hcon; cases hcon)
  have hb : jsSet s.board idx (.mark s.current) =
      s.board.set idx (.mark s.current) := jsSet_lt _ _ _ hlt
  have h1 : s.winner.isSome = false := by rw [hw]; rfl
  have h2 : truthy (jsGet s.board idx) = false := by rw [he]; rfl
  unfold handleMove
  simp only [h1, h2, hd, Bool.false_eq_true, if_false, hb]
  split
  · rename_i line hline
    refine ⟨rfl, rfl, ?_, ?_, ?_⟩
    · intro l hl; rw [hline] at hl; cases hl; exact ⟨rfl, rfl, rfl⟩
    · intro hn _; rw [hline] at hn; cases hn
    · intro hn _; rfl
  · rename_i hnone
    split
    · rename_i hdr
      refine ⟨rfl, rfl, ?_, ?_, ?_⟩
      · intro l hl; rw [hnone] at hl; cases hl
      · intro _ hq; rw [hdr] at hq; cases hq
      · intro _ _; rfl
    · rename_i hdr
      refine ⟨rfl, rfl, ?_, ?_, ?_⟩
      · intro l hl; rw [hnone] at hl; cases hl
      · intro _ _; rfl
      · intro _ hq; rw [hq] at hdr; exact absurd rfl hdr

/-- Witness for C2: first move of the game at cell 0. -/
theorem C2_valid_move_effect_witness :
    (handleMove initState 0).board =
      initState.board.set 0 (.mark initState.current) ∧
    (handleMove initState 0).moveCount = initState.moveCount + 1 ∧
    (handleMove initState 0).current = flipMark initState.current :=
  have h := C2_valid_move_effect initState 0 (by decide) (by decide)
    (by decide) (by decide)
  ⟨h.1, h.2.1, h.2.2.2.1 (by decide) (by decide)⟩

/-- C6: both reset buttons replace any prior state with the fresh state:
all-empty board, turn X, no winner, no winning line, zero moves; the
`hard` flag makes no difference. -/
theorem C6_reset_fresh (s : GameState) (hard : Bool) :
    stepAction s (.reset hard) = initState ∧
    (resetGame hard).board = List.replicate 9 .jnull ∧
    (resetGame hard).current = .X ∧
    (resetGame hard).winner = none ∧
    (resetGame hard).winningLine = none ∧
    (resetGame hard).moveCount = 0 ∧
    resetGame true = resetGame false := by
  cases hard <;> exact ⟨rfl, rfl, rfl, rfl, rfl, rfl, rfl⟩

/-- Witness for C6: a hard reset mid-game yields the fresh state. -/
theorem C6_reset_fresh_witness :
    stepAction (runMoves [0, 3, 1]) (.reset true) = initState :=
  (C6_reset_fresh (runMoves [0, 3, 1]) true).1

/-- C10: in an in-progress 9-cell state, a move at an out-of-range index
(`idx ≥ 9`) is not rejected: the mark is stored at that index, `moveCount`
is incremented, the state changes, and cells 0–8 are untouched. -/
theorem C10_out_of_range_move (s : GameState) (idx : Nat)
    (hw : s.winner = none) (hd : isDraw s.board = false)
    (hlen : s.board.length = 9) (hidx : 9 ≤ idx) :
    handleMove s idx ≠ s ∧
    jsGet (handleMove s idx).board idx = .mark s.current ∧
    (handleMove s idx).moveCount = s.moveCount + 1 ∧
    ∀ i, i < 9 → jsGet (handleMove s idx).board i = jsGet s.board i := by
  have h1 : s.winner.isSome = false := by rw [hw]; rfl
  have hge : s.board.length ≤ idx := by omega
  have hu : jsGet s.board idx = .undefined := jsGet_ge _ _ hge
  have h2 : truthy (jsGet s.board idx) = false := by rw [hu]; rfl
  obtain ⟨hb, hm⟩ := handleMove_accepted s idx h1 h2 hd
  rw [jsSet_ge _ _ _ hge] at hb
  refine ⟨?_, ?_, hm, ?_⟩
  · intro heq
    rw [heq] at hm; omega
  · rw [hb]
    unfold jsGet
    rw [List.append_assoc,
      List.getD_append_right _ _ _ _ (by omega),
      List.getD_append_right _ _ _ _ (by simp [hlen])]
    simp [hlen]
  · intro i hi
    rw [hb]
    unfold jsGet
    rw [List.append_assoc, List.getD_append _ _ _ _ (by omega)]

/-- Witness for C10: from the fresh state, a move at index 9 is accepted
and stores X there. -/
theorem C10_out_of_range_move_witness :
    handleMove initState 9 ≠ initState ∧
    jsGet (handleMove initState 9).board 9 = .mark initState.current ∧
    (handleMove initState 9).moveCount = initState.moveCount + 1 :=
  have h := C10_out_of_range_move initState 9 (by decide) (by decide)
    (by decide) (by decide)
  ⟨h.1, h.2.1, h.2.2.1⟩

/-- A `find?` that returns `some a` found `a` as the FIRST match: the list
splits as `pre ++ a :: post` with nothing in `pre` matching. -/
lemma find?_first {α : Type} (p : α → Bool) (l : List α) (a : α)
    (h : l.find? p = some a) :
    ∃ pre post, l = pre ++ a :: post ∧ (∀ x ∈ pre, p x = false) ∧
      p a = true := by
  induction l with
  | nil => cases h
  | cons x l ih =>
    by_cases hx : p x = true
    · rw [List.find?_cons_of_pos _ hx] at h
      cases h
      refine ⟨[], l, rfl, ?_, hx⟩
      intro y hy
      cases hy
    · rw [List.find?_cons_of_neg _ (by simpa using hx)] at h
      obtain ⟨pre, post, hl, hpre, hpa⟩ := ih h
      refine ⟨x :: pre, post, by rw [hl, List.cons_append], ?_, hpa⟩
      intro y hy
      rcases List.mem_cons.mp hy with hy | hy
      · subst hy; simpa using hx
      · exact hpre y hy

/-- The loop test of `getWinningLine` holds exactly when the triple's three
cells hold the same mark. -/
lemma lineMatch_iff (board : List JsCell) (t : Nat × Nat × Nat) :
    lineMatch board t = true ↔ winsAt board t := by
  obtain ⟨a, b, c⟩ := t
  simp only [lineMatch, winsAt, Bool.and_eq_true, decide_eq_true_eq]
  constructor
  · rintro ⟨⟨ht, hab⟩, hac⟩
    cases hcell : jsGet board a with
    | undefined => rw [hcell] at ht; exact Bool.noConfusion ht
    | jnull => rw [hcell] at ht; exact Bool.noConfusion ht
    | mark m =>
      rw [hcell] at hab hac
      exact ⟨m, rfl, hab.symm, hac.symm⟩
  · rintro ⟨m, ha, hb, hc⟩
    rw [ha, hb, hc]
    exact ⟨⟨rfl, rfl⟩, rfl⟩

/-- C3: `getWinningLine` scans the 8 fixed triples in the listed order
(rows, columns, diagonals) and returns the first one whose three cells
hold the same mark, `none` when no triple qualifies, and `none` on the
all-empty board. -/
theorem C3_getWinningLine_first_match :
    (∀ board t, getWinningLine board = some t →
      ∃ pre post, WIN_LINES = pre ++ t :: post ∧ winsAt board t ∧
        ∀ u ∈ pre, ¬ winsAt board u) ∧
    (∀ board, getWinningLine board = none →
      ∀ t ∈ WIN_LINES, ¬ winsAt board t) ∧
    WIN_LINES = [(0, 1, 2), (3, 4, 5), (6, 7, 8), (0, 3, 6), (1, 4, 7),
      (2, 5, 8), (0, 4, 8), (2, 4, 6)] ∧
    getWinningLine (List.replicate 9 .jnull) = none := by
  refine ⟨?_, ?_, rfl, by decide⟩
  · intro board t h
    obtain ⟨pre, post, hl, hpre, hpa⟩ :=
      find?_first (lineMatch board) WIN_LINES t h
    refine ⟨pre, post, hl, (lineMatch_iff board t).mp hpa, ?_⟩
    intro u hu hw
    have := (lineMatch_iff board u).mpr hw
    rw [hpre u hu] at this
    exact Bool.noConfusion this
  · intro board h t ht hw
    exact (List.find?_eq_none.mp h) t ht ((lineMatch_iff board t).mpr hw)

/-- Witness for C3: on a board with X across the top row, the first match
is the triple (0,1,2) with empty prefix. -/
theorem C3_getWinningLine_first_match_witness :
    ∃ pre post,
      WIN_LINES = pre ++ (0, 1, 2) :: post ∧
      winsAt [.mark .X, .mark .X, .mark .X, .jnull, .jnull, .jnull, .jnull,
        .jnull, .jnull] (0, 1, 2) ∧
      ∀ u ∈ pre,
        ¬ winsAt [.mark .X, .mark .X, .mark .X, .jnull, .jnull, .jnull,
          .jnull, .jnull, .jnull] u :=
  C3_getWinningLine_first_match.1 _ (0, 1, 2) (by decide)

/-- C4: on a 9-cell board (no `undefined` cells), `isDraw` is `true`
exactly when all 9 cells hold a mark and `getWinner` finds no winner. -/
theorem C4_isDraw_iff (board : List JsCell) (hlen : board.length = 9)
    (hwf : ∀ c ∈ board, c ≠ .undefined) :
    isDraw board = true ↔
      ((∀ i, i < 9 → truthy (jsGet board i) = true) ∧
        getWinner board = none) := by
  unfold isDraw
  rw [Bool.and_eq_true, List.all_eq_true, Option.isNone_iff_eq_none]
  constructor
  · rintro ⟨hall, hnone⟩
    refine ⟨?_, hnone⟩
    intro i hi
    have hilen : i < board.length := by omega
    rw [jsGet_lt _ _ hilen]
    have hmem : board[i] ∈ board := List.getElem_mem hilen
    have hne : board[i] ≠ .jnull := by simpa using hall _ hmem
    have hnu : board[i] ≠ .undefined := hwf _ hmem
    cases hcell : board[i] with
    | undefined => exact absurd hcell hnu
    | jnull => exact absurd hcell hne
    | mark m => rfl
  · rintro ⟨hfull, hnone⟩
    refine ⟨?_, hnone⟩
    intro c hc
    obtain ⟨i, hilen, hci⟩ := List.mem_iff_getElem.mp hc
    have hi9 : i < 9 := by omega
    have htr := hfull i hi9
    rw [jsGet_lt _ _ hilen, hci] at htr
    cases c with
    | mark m => simp
    | undefined => exact Bool.noConfusion htr
    | jnull => exact Bool.noConfusion htr

/-- Witness for C4: the drawn board of scenario B is a draw. -/
theorem C4_isDraw_iff_witness :
    isDraw [.mark .X, .mark .O, .mark .X, .mark .X, .mark .O, .mark .O,
      .mark .O, .mark .X, .mark .X] = true :=
  (C4_isDraw_iff _ (by decide) (by decide)).mpr ⟨by decide, by decide⟩

/-- C7 (amended): the rendered status text is "Winner: {winner}" when the
winner is set, otherwise "It's a draw." when the board is a draw,
otherwise "Turn: {currentTurn}". -/
theorem C7_statusText_cases (s : GameState) :
    (∀ m, s.winner = some m → statusText s = "Winner: " ++ m.str) ∧
    (s.winner = none → isDraw s.board = true →
      statusText s = "It\x27s a draw.") ∧
    (s.winner = none → isDraw s.board = false →
      statusText s = "Turn: " ++ s.current.str) := by
  refine ⟨?_, ?_, ?_⟩
  · intro m hm; simp [statusText, hm]
  · intro hn hd; simp [statusText, hn, hd]
  · intro hn hd; simp [statusText, hn, hd]

/-- Witness for C7 (amended): the fresh state shows "Turn: X". -/
theorem C7_statusText_cases_witness :
    statusText initState = "Turn: " ++ Mark.str .X :=
  (C7_statusText_cases initState).2.2 (by decide) (by decide)

/-- Counterexample for C7 as stated: after the drawing sequence of
scenario B the game is a draw (no winner) but the status text is not
"Draw" — the source renders "It's a draw.". -/
theorem C7_draw_text_counterexample :
    (runMoves [0, 1, 2, 4, 3, 5, 7, 6, 8]).winner = none ∧
    isDraw (runMoves [0, 1, 2, 4, 3, 5, 7, 6, 8]).board = true ∧
    statusText (runMoves [0, 1, 2, 4, 3, 5, 7, 6, 8]) ≠ "Draw" := by
  refine ⟨by decide, by decide, by decide⟩

/-! ### More board lemmas -/

lemma length_jsSet (l : List JsCell) (i : Nat) (v : JsCell) :
    (jsSet l i v).length = max l.length (i + 1) := by
  unfold jsSet
  split <;> simp <;> omega

lemma jsGet_jsSet_self (l : List JsCell) (i : Nat) (v : JsCell) :
    jsGet (jsSet l i v) i = v := by
  by_cases h : i < l.length
  · rw [jsSet_lt _ _ _ h]
    exact jsGet_set_self _ _ _ h
  · have hge : l.length ≤ i := Nat.le_of_not_lt h
    rw [jsSet_ge _ _ _ hge]
    unfold jsGet
    rw [List.append_assoc,
      List.getD_append_right _ _ _ _ hge,
      List.getD_append_right _ _ _ _ (by simp),
      List.length_replicate, Nat.sub_self]
    rfl

lemma jsGet_jsSet_ne (l : List JsCell) (i j : Nat) (v : JsCell)
    (h : i ≠ j) : jsGet (jsSet l i v) j = jsGet l j := by
  by_cases hi : i < l.length
  · rw [jsSet_lt _ _ _ hi]
    exact jsGet_set_ne _ _ _ _ h
  · have hge : l.length ≤ i := Nat.le_of_not_lt hi
    rw [jsSet_ge _ _ _ hge]
    unfold jsGet
    by_cases hj : j < l.length
    · rw [List.append_assoc, List.getD_append _ _ _ _ hj]
    · have hjge : l.length ≤ j := Nat.le_of_not_lt hj
      rw [List.getD_eq_default _ _ hjge, List.append_assoc,
        List.getD_append_right _ _ _ _ hjge]
      by_cases hlt : j - l.length < i - l.length
      · rw [List.getD_append _ _ _ _ (by simpa using hlt)]
        simp [List.getD_eq_getElem?_getD]
      · rw [List.getD_eq_default]
        simp only [List.length_append, List.length_replicate,
          List.length_cons, List.length_nil]
        omega

lemma countP_set_incr (p : JsCell → Bool) (l : List JsCell) (i : Nat)
    (v : JsCell) (h : i < l.length) (hold : p (l.getD i .undefined) = false)
    (hnew : p v = true) :
    (l.set i v).countP p = l.countP p + 1 := by
  induction l generalizing i with
  | nil => cases h
  | cons x l ih =>
    cases i with
    | zero =>
      simp only [List.getD_cons_zero] at hold
      simp [List.countP_cons, hold, hnew]
    | succ n =>
      simp only [List.getD_cons_succ] at hold
      have hn : n < l.length := by simpa using h
      simp only [List.set_cons_succ, List.countP_cons, ih n hn hold]
      omega

/-- Exhaustive description of one `handleMove` call: either a guard fired
and the state is unchanged, or the move was accepted and the post-check
took exactly one of its three branches (win / draw / flip). -/
lemma handleMove_cases (s : GameState) (idx : Nat) :
    handleMove s idx = s ∨
    (s.winner = none ∧ truthy (jsGet s.board idx) = false ∧
      isDraw s.board = false ∧
      (handleMove s idx).board = jsSet s.board idx (.mark s.current) ∧
      (handleMove s idx).moveCount = s.moveCount + 1 ∧
      (((handleMove s idx).winner = some s.current ∧
        (handleMove s idx).current = s.current) ∨
       ((handleMove s idx).winner = none ∧
        getWinningLine (jsSet s.board idx (.mark s.current)) = none ∧
        isDraw (jsSet s.board idx (.mark s.current)) = true ∧
        (handleMove s idx).current = s.current) ∨
       ((handleMove s idx).winner = none ∧
        getWinningLine (jsSet s.board idx (.mark s.current)) = none ∧
        isDraw (jsSet s.board idx (.mark s.current)) = false ∧
        (handleMove s idx).current = flipMark s.current))) := by
  by_cases h1 : s.winner.isSome = true
  · exact Or.inl (handleMove_of_guard _ _ (Or.inl h1))
  by_cases h2 : truthy (jsGet s.board idx) = true
  · exact Or.inl (handleMove_of_guard _ _ (Or.inr (Or.inl h2)))
  by_cases h3 : isDraw s.board = true
  · exact Or.inl (handleMove_of_guard _ _ (Or.inr (Or.inr h3)))
  right
  have h1' : s.winner.isSome = false := Bool.not_eq_true _ ▸ h1
  have h2' : truthy (jsGet s.board idx) = false := Bool.not_eq_true _ ▸ h2
  have h3' : isDraw s.board = false := Bool.not_eq_true _ ▸ h3
  have hwn : s.winner = none := Option.not_isSome_iff_eq_none.mp (by simp [h1'])
  refine ⟨hwn, h2', h3', ?_⟩
  unfold handleMove
  simp only [h1', h2', h3', Bool.false_eq_true, if_false]
  split
  · rename_i line hline
    exact ⟨rfl, rfl, Or.inl ⟨rfl, rfl⟩⟩
  · rename_i hnone
    split
    · rename_i hdr
      exact ⟨rfl, rfl, Or.inr (Or.inl ⟨hwn, hnone, hdr, rfl⟩)⟩
    · rename_i hdr
      exact ⟨rfl, rfl, Or.inr (Or.inr ⟨hwn, hnone,
        Bool.not_eq_true _ ▸ hdr, rfl⟩)⟩

/-- Invariant preservation along a fold. -/
lemma foldl_inv {σ α : Type} (f : σ → α → σ) (P : σ → Prop)
    (hstep : ∀ s a, P s → P (f s a)) :
    ∀ (l : List α) (s : σ), P s → P (l.foldl f s) := by
  intro l
  induction l with
  | nil => intro s hs; exact hs
  | cons a l ih => intro s hs; exact ih _ (hstep s a hs)

/-- Invariant preservation along a fold whose inputs all satisfy `Q`. -/
lemma foldl_inv_all {σ α : Type} (f : σ → α → σ) (P : σ → Prop)
    (Q : α → Prop) (hstep : ∀ s a, Q a → P s → P (f s a)) :
    ∀ (l : List α), (∀ a ∈ l, Q a) → ∀ s, P s → P (l.foldl f s) := by
  intro l
  induction l with
  | nil => intro _ s hs; exact hs
  | cons a l ih =>
    intro hq s hs
    exact ih (fun b hb => hq b (List.mem_cons_of_mem a hb)) _
      (hstep s a (hq a (List.mem_cons_self a l)) hs)

lemma moveCount_inv_step (s : GameState) (a : UserAction)
    (hq : inRange a = true)
    (h : s.board.length = 9 ∧ s.moveCount = countMarks s.board) :
    (stepAction s a).board.length = 9 ∧
    (stepAction s a).moveCount = countMarks (stepAction s a).board := by
  obtain ⟨hlen, hcnt⟩ := h
  cases a with
  | reset hard => cases hard <;> exact ⟨rfl, rfl⟩
  | move idx =>
    have hidx : idx ≤ 8 := by simpa [inRange] using hq
    show (handleMove s idx).board.length = 9 ∧
      (handleMove s idx).moveCount = countMarks (handleMove s idx).board
    rcases handleMove_cases s idx with heq | ⟨_, h2, _, hb, hm, _⟩
    · rw [heq]; exact ⟨hlen, hcnt⟩
    · have hlt : idx < s.board.length := by omega
      rw [hb, hm, jsSet_lt _ _ _ hlt]
      constructor
      · simp [hlen]
      · rw [hcnt]
        unfold countMarks
        rw [countP_set_incr truthy s.board idx (.mark s.current) hlt h2 rfl]

/-- C5: after any sequence of `handleMove` (index 0–8) and `resetGame`
calls from the initial state, `moveCount` equals the number of non-empty
cells on the board. -/
theorem C5_moveCount_eq_marks (acts : List UserAction)
    (h : ∀ a ∈ acts, inRange a = true) :
    (runActions acts).moveCount = countMarks (runActions acts).board :=
  (foldl_inv_all stepAction
    (fun s => s.board.length = 9 ∧ s.moveCount = countMarks s.board)
    (fun a => inRange a = true) moveCount_inv_step acts h initState
    ⟨by decide, by decide⟩).2

/-- Witness for C5: a run with an accepted move, a rejected move (occupied
cell), a reset and two more moves. -/
theorem C5_moveCount_eq_marks_witness :
    (runActions [.move 4, .move 4, .move 0, .reset true, .move 8,
      .move 2]).moveCount =
      countMarks (runActions [.move 4, .move 4, .move 0, .reset true,
        .move 8, .move 2]).board :=
  C5_moveCount_eq_marks _ (by decide)

lemma winner_current_step (s : GameState) (a : UserAction)
    (h : ∀ m, s.winner = some m → s.current = m) :
    ∀ m, (stepAction s a).winner = some m → (stepAction s a).current = m := by
  cases a with
  | reset hard => intro m hm; cases hard <;> cases hm
  | move idx =>
    intro m hm
    replace hm : (handleMove s idx).winner = some m := hm
    show (handleMove s idx).current = m
    rcases handleMove_cases s idx with heq | ⟨_, _, _, _, _, hcase⟩
    · rw [heq] at hm ⊢
      exact h m hm
    · rcases hcase with ⟨hws, hcur⟩ | ⟨hwn, _, _, _⟩ | ⟨hwn, _, _, _⟩
      · rw [hws] at hm
        cases hm
        exact hcur
      · rw [hm] at hwn; cases hwn
      · rw [hm] at hwn; cases hwn

/-- C9: in every state reachable by `handleMove` and `resetGame` calls
from the initial state, if the winner is set then `current` still equals
the winner. -/
theorem C9_winner_is_current (acts : List UserAction) (m : Mark)
    (h : (runActions acts).winner = some m) :
    (runActions acts).current = m :=
  foldl_inv stepAction (fun s => ∀ m, s.winner = some m → s.current = m)
    winner_current_step acts initState (fun _ hm => by cases hm) m h

/-- Witness for C9: after X wins across the top row, `current` is X. -/
theorem C9_winner_is_current_witness :
    (runActions [.move 0, .move 3, .move 1, .move 4, .move 2]).current =
      Mark.X :=
  C9_winner_is_current _ Mark.X (by decide)

lemma placedTrace_nil (s : GameState) : placedTrace s [] = [] := rfl

lemma placedTrace_cons (s : GameState) (idx : Nat) (rest : List Nat) :
    placedTrace s (idx :: rest) =
      if (handleMove s idx).moveCount = s.moveCount then
        placedTrace (handleMove s idx) rest
      else s.current :: placedTrace (handleMove s idx) rest := rfl

lemma flip_parity (k : Nat) : flipMark (parityMark k) = parityMark (k + 1) := by
  unfold parityMark flipMark
  rcases Nat.mod_two_eq_zero_or_one k with h | h
  · have h1 : (k + 1) % 2 = 1 := by omega
    simp [h, h1]
  · have h1 : (k + 1) % 2 = 0 := by omega
    simp [h, h1]

lemma turnAligned_step (s : GameState) (idx : Nat) (h : turnAligned s) :
    turnAligned (handleMove s idx) := by
  rcases handleMove_cases s idx with heq | ⟨hwn, h2, h3, hb, hm, hcase⟩
  · rw [heq]; exact h
  · intro hw' hd'
    rcases hcase with ⟨hws, hcur⟩ | ⟨_, _, hdr, hcur⟩ | ⟨_, _, hdr, hcur⟩
    · rw [hws] at hw'; cases hw'
    · rw [hb, hdr] at hd'; cases hd'
    · rw [hcur, hm, h hwn h3, flip_parity]

lemma placedTrace_getD (acts : List Nat) :
    ∀ (s : GameState), turnAligned s →
      ∀ k, k < (placedTrace s acts).length →
        (placedTrace s acts).getD k .X = parityMark (s.moveCount + k) := by
  induction acts with
  | nil =>
    intro s _ k hk
    rw [placedTrace_nil] at hk
    exact absurd hk (Nat.not_lt_zero k)
  | cons idx rest ih =>
    intro s hs k hk
    by_cases hmc : (handleMove s idx).moveCount = s.moveCount
    · have heq := handleMove_eq_of_moveCount_eq s idx hmc
      rw [placedTrace_cons, if_pos hmc, heq] at hk ⊢
      exact ih s hs k hk
    · rw [placedTrace_cons, if_neg hmc] at hk ⊢
      obtain ⟨h1, h2, h3⟩ := accepted_of_moveCount_ne s idx hmc
      cases k with
      | zero =>
        rw [List.getD_cons_zero]
        have hwn : s.winner = none :=
          Option.not_isSome_iff_eq_none.mp (by simp [h1])
        rw [hs hwn h3]
        simp
      | succ n =>
        rw [List.getD_cons_succ]
        have hs' := turnAligned_step s idx hs
        have hlen' : n < (placedTrace (handleMove s idx) rest).length := by
          simpa using hk
        rw [ih (handleMove s idx) hs' n hlen',
          (handleMove_accepted s idx h1 h2 h3).2]
        congr 1
        omega

lemma sound_init : sound initState := by
  refine ⟨by decide, ?_, fun _ => by decide⟩
  intro i hi
  have hlen : initState.board.length = 9 := by decide
  rw [jsGet_ge _ _ (by omega)]
  intro hcon; cases hcon

lemma sound_step (s : GameState) (idx : Nat) (h : sound s) :
    sound (handleMove s idx) := by
  obtain ⟨hlen, htail, hline⟩ := h
  rcases handleMove_cases s idx with heq | ⟨hwn, h2, h3, hb, hm, hcase⟩
  · rw [heq]; exact ⟨hlen, htail, hline⟩
  · refine ⟨?_, ?_, ?_⟩
    · rw [hb, length_jsSet]; omega
    · intro i hi
      rw [hb]
      by_cases hii : idx = i
      · subst hii; rw [jsGet_jsSet_self]; intro hcon; cases hcon
      · rw [jsGet_jsSet_ne _ _ _ _ hii]; exact htail i hi
    · intro hw'
      rcases hcase with ⟨hws, _⟩ | ⟨_, hnl, _, _⟩ | ⟨_, hnl, _, _⟩
      · rw [hws] at hw'; cases hw'
      · rw [hb]; exact hnl
      · rw [hb]; exact hnl

/-- Once the winner is set or all 9 cells are occupied, a sound state
rejects every further move. -/
lemma full_or_won_rejected (s : GameState) (idx : Nat) (hs : sound s)
    (h : s.winner.isSome = true ∨ boardFull s.board) :
    handleMove s idx = s := by
  obtain ⟨hlen, htail, hline⟩ := hs
  rcases h with h | h
  · exact handleMove_of_guard _ _ (Or.inl h)
  · by_cases hw : s.winner.isSome = true
    · exact handleMove_of_guard _ _ (Or.inl hw)
    · have hwn : s.winner = none := Option.not_isSome_iff_eq_none.mp hw
      refine handleMove_of_guard _ _ (Or.inr (Or.inr ?_))
      unfold isDraw
      rw [Bool.and_eq_true, List.all_eq_true]
      constructor
      · intro c hc
        obtain ⟨i, hi, hci⟩ := List.mem_iff_getElem.mp hc
        rw [decide_eq_true_eq]
        by_cases hi9 : i < 9
        · have htr := h i hi9
          rw [jsGet_lt _ _ hi, hci] at htr
          cases c with
          | mark m => intro hcon; cases hcon
          | undefined => exact Bool.noConfusion htr
          | jnull => exact Bool.noConfusion htr
        · have htr := htail i (by omega)
          rw [jsGet_lt _ _ hi, hci] at htr
          exact htr
      · rw [Option.isNone_iff_eq_none]
        unfold getWinner
        rw [hline hwn]

/-- C8: along every sequence of `handleMove` calls from the fresh state,
the `k`-th placed mark is X for even `k` and O for odd `k` (the turn
alternates strictly across placed marks), and once the winner is set or
the board is full, no further `handleMove` call changes `current`. -/
theorem C8_turn_alternation :
    (∀ (acts : List Nat) (k : Nat),
      k < (placedTrace initState acts).length →
      (placedTrace initState acts).getD k .X = parityMark k) ∧
    (∀ (acts : List Nat) (idx : Nat),
      (runMoves acts).winner.isSome = true ∨
        boardFull (runMoves acts).board →
      (handleMove (runMoves acts) idx).current = (runMoves acts).current) := by
  constructor
  · intro acts k hk
    have hg := placedTrace_getD acts initState (fun _ _ => rfl) k hk
    simpa [initState] using hg
  · intro acts idx h
    have hs : sound (runMoves acts) :=
      foldl_inv handleMove sound sound_step acts initState sound_init
    rw [full_or_won_rejected _ idx hs h]

/-- Witness for C8: a trace with an accepted out-of-range move and a
rejected occupied-cell move still alternates, and after X wins no move
changes the turn. -/
theorem C8_turn_alternation_witness :
    (placedTrace initState [0, 5, 9, 5, 3]).getD 2 .X = parityMark 2 ∧
    (handleMove (runMoves [0, 3, 1, 4, 2]) 5).current =
      (runMoves [0, 3, 1, 4, 2]).current :=
  ⟨C8_turn_alternation.1 [0, 5, 9, 5, 3] 2 (by decide),
   C8_turn_alternation.2 [0, 3, 1, 4, 2] 5 (Or.inl (by decide))⟩

example : getWinningLine (List.replicate 9 .jnull) = none := by decide

example :
    runMoves [0, 3, 1, 4, 2] =
      { board := [.mark .X, .mark .X, .mark .X, .mark .O, .mark .O,
                  .jnull, .jnull, .jnull, .jnull]
        current := .X
        winner := some .X
        winningLine := some (0, 1, 2)
        moveCount := 5 } := by decide

example :
    (runMoves [0, 1, 2, 4, 3, 5, 7, 6, 8]).winner = none ∧
      isDraw (runMoves [0, 1, 2, 4, 3, 5, 7, 6, 8]).board = true ∧
      statusText (runMoves [0, 1, 2, 4, 3, 5, 7, 6, 8]) = "It\x27s a draw." := by
  decide
